import Mathlib

/-!
Shallow embedding of the xfuse XFS read-only driver (src/libxfuse) and proofs
about its directory, attribute and file-read cores.

Conventions:
* On-disk bytes are `List Nat` (each element intended `< 256`); big-endian
  multi-byte integers are decoded explicitly.
* Machine integers are `Nat`/`Int`.  Where Rust overflow semantics matter the
  wrap is written out (`% 2^w`); a `checked` variant models the subtraction
  under debug assertions (`overflow-checks = on`), where out-of-range is a
  panic.
* Fallible Rust code returning `Result<T, c_int>` becomes `Except Int T`.
  A Rust panic (a failed `unwrap`, `assert!`, arithmetic overflow in a debug
  build, or an out-of-bounds index) is modelled by `Option.none` wrapped
  around the whole computation; loops whose termination depends on decoded
  data carry an explicit fuel, and running out of fuel is also `none`.
-/

/-- errno values used by the sources (`libc` on the target platform). -/
def ENOENT : Int := 2

/-- errno: invalid argument. -/
def EINVAL : Int := 22

/-- errno: extended attribute not found. -/
def ENOATTR : Int := 87

/-- Byte read: `raw[i]`; `none` models the panic of indexing or decoding past
the end of the slice. -/
def u8At (raw : List Nat) (i : Nat) : Option Nat := raw.get? i

/-- Big-endian `u16` at byte offset `i`. -/
def u16BeAt (raw : List Nat) (i : Nat) : Option Nat := do
  let b0 ← raw.get? i
  let b1 ← raw.get? (i + 1)
  pure (b0 * 256 + b1)

/-- Big-endian `u64` at byte offset `i`. -/
def u64BeAt (raw : List Nat) (i : Nat) : Option Nat := do
  let b0 ← raw.get? i
  let b1 ← raw.get? (i + 1)
  let b2 ← raw.get? (i + 2)
  let b3 ← raw.get? (i + 3)
  let b4 ← raw.get? (i + 4)
  let b5 ← raw.get? (i + 5)
  let b6 ← raw.get? (i + 6)
  let b7 ← raw.get? (i + 7)
  pure (((((((b0 * 256 + b1) * 256 + b2) * 256 + b3) * 256 + b4) * 256 + b5)
      * 256 + b6) * 256 + b7)

/-- `n` bytes starting at offset `i`; fails (like `read`/`read_exact` on a
short slice) when fewer than `n` bytes remain. -/
def bytesAt (raw : List Nat) (i n : Nat) : Option (List Nat) :=
  if i + n ≤ raw.length then some ((raw.drop i).take n) else none

/-- Two's-complement reinterpretation of a byte value as Rust `i8`
(`namelen as i8`). -/
def i8ofNat (n : Nat) : Int := ((n : Int) + 128) % 256 - 128

/-- Wrap of an `i8` arithmetic result (release-build overflow semantics). -/
def i8wrap (x : Int) : Int := (x + 128) % 256 - 128

/-! ## utils.rs -/

/-- `fuser::FileType`, restricted to the variants `get_file_type` produces. -/
inductive FileType where
  | regularFile
  | directory
  | symlink
deriving DecidableEq, Repr

/-- `utils::FileKind`: a directory-entry `ftype` byte or an inode mode word. -/
inductive FileKind where
  | type (t : Nat)
  | mode (m : Nat)
deriving DecidableEq, Repr

/-- `dir3.rs` file-type byte for a regular file. -/
def XFS_DIR3_FT_REG_FILE : Nat := 1

/-- `dir3.rs` file-type byte for a directory. -/
def XFS_DIR3_FT_DIR : Nat := 2

/-- `dir3.rs` file-type byte for a symlink. -/
def XFS_DIR3_FT_SYMLINK : Nat := 7

/-- `libc::S_IFMT` (mode-class mask). -/
def S_IFMT : Nat := 0xf000

/-- `libc::S_IFREG`. -/
def S_IFREG : Nat := 0x8000

/-- `libc::S_IFDIR`. -/
def S_IFDIR : Nat := 0x4000

/-- `libc::S_IFLNK`. -/
def S_IFLNK : Nat := 0xa000

/-- `utils::get_file_type` (utils.rs lines 39-60). -/
def get_file_type : FileKind → Except Int FileType
  | FileKind.type t =>
    if t = XFS_DIR3_FT_REG_FILE then .ok .regularFile
    else if t = XFS_DIR3_FT_DIR then .ok .directory
    else if t = XFS_DIR3_FT_SYMLINK then .ok .symlink
    else .error ENOENT
  | FileKind.mode m =>
    if m &&& S_IFMT = S_IFREG then .ok .regularFile
    else if m &&& S_IFMT = S_IFDIR then .ok .directory
    else if m &&& S_IFMT = S_IFLNK then .ok .symlink
    else .error ENOENT

/-! ## dir3.rs : directory data entries -/

/-- `dir3::Dir2DataEntry` (decoded form). -/
structure Dir2DataEntry where
  inumber : Nat
  name : List Nat
  ftype : Nat
  tag : Nat
deriving DecidableEq, Repr

/-- `Dir2DataEntry::get_length` (dir3.rs lines 132-135): reads the `namelen`
byte at offset 8 of the raw slice and computes
`((namelen + 8 + 1 + 2) + 8 - 1) / 8 * 8` in `i64`. -/
def Dir2DataEntry.get_length (raw : List Nat) : Option Int := do
  let namelen ← u8At raw 8
  pure ((((namelen : Int) + 8 + 1 + 2) + 8 - 1) / 8 * 8)

/-- `Dir2DataEntry::length` (dir3.rs lines 146-149): same formula over the
in-memory name length, in `usize`. -/
def Dir2DataEntry.length (e : Dir2DataEntry) : Nat :=
  ((e.name.length + 8 + 1 + 2) + 8 - 1) / 8 * 8

/-- `impl Decode for Dir2DataEntry` (dir3.rs lines 152-172): decodes
`inumber:u64 | namelen:u8 | name[namelen] | ftype:u8 | pad | tag:u16` and
returns the entry together with the number of bytes consumed.  The pad is
`(4 - namelen as i8).rem_euclid(8)` (the `i8` subtraction wraps in a release
build). -/
def Dir2DataEntry.decode (raw : List Nat) : Option (Dir2DataEntry × Nat) := do
  let inumber ← u64BeAt raw 0
  let namelen ← u8At raw 8
  let name ← bytesAt raw 9 namelen
  let ftype ← u8At raw (9 + namelen)
  let pad := (i8wrap (4 - i8ofNat namelen) % 8).toNat
  let tag ← u16BeAt raw (10 + namelen + pad)
  pure (⟨inumber, name, ftype, tag⟩, 12 + namelen + pad)

/-- `dir3::Dir2DataUnused` (free-tag record). -/
structure Dir2DataUnused where
  freetag : Nat
  length : Nat
  tag : Nat
deriving DecidableEq, Repr

/-- `impl Decode for Dir2DataUnused` (dir3.rs lines 214-226): reads
`freetag:u16 | length:u16`, consumes `length - 6` filler bytes (a `usize`
subtraction, underflowing for `length < 6`), reads the trailing `tag:u16`,
and consumes `length` bytes in total. -/
def Dir2DataUnused.decode (raw : List Nat) : Option (Dir2DataUnused × Nat) := do
  let freetag ← u16BeAt raw 0
  let length ← u16BeAt raw 2
  if length < 6 then none
  else do
    let tag ← u16BeAt raw (length - 2)
    pure (⟨freetag, length, tag⟩, length)

/-! ## dir3_leaf.rs : `Dir2Leaf::next` (readdir for leaf-shape directories)

The view's `entries: Vec<Dir2Data>` names the directory's data blocks; each
iteration reads the whole raw block (`dblksize` bytes) for the current block
index.  We model the sequence of raw data blocks directly as
`blocks : List (List Nat)`, block `idx` being the bytes `Dir2Data::from` /
`read_exact` would produce for `entries[idx]`. -/

/-- `mem::size_of::<Dir3DataHdr>()` = 48 (block header) + 3*4 (best_free)
+ 4 (pad) = 64 bytes, which also equals the on-disk `Dir3DataHdr::SIZE`. -/
def Dir3DataHdr.SIZE : Nat := 64

/-- Result of one pass of the inner `while offset < raw.len()` loop of
`Dir2Leaf::next`: an entry was returned, an error was returned (from
`get_file_type`), or the offset ran off the end of the block with the given
current value of the `next` flag. -/
inductive Dir2NextInnerOut where
  | found (ino : Nat) (cookie : Nat) (kind : FileType) (name : List Nat)
  | fail (e : Int)
  | offEnd (nxt : Bool)
deriving DecidableEq, Repr

/-- The inner `while offset < raw.len()` loop of `Dir2Leaf::next`
(dir3_leaf.rs lines 166-185).  `idx` is the index of the block being scanned
(used to build the returned cookie `((idx as u64) << 56) | entry.tag`). -/
def dir2NextInner (raw : List Nat) (idx : Nat) (fuel : Nat) (off : Nat)
    (nxt : Bool) : Option Dir2NextInnerOut :=
  match fuel with
  | 0 => none
  | fuel + 1 =>
    if off < raw.length then
      match u16BeAt raw off with
      | none => none
      | some freetag =>
        if freetag = 0xffff then
          match Dir2DataUnused.decode (raw.drop off) with
          | none => none
          | some (_, len) => dir2NextInner raw idx fuel (off + len) nxt
        else if nxt then
          match Dir2DataEntry.decode (raw.drop off) with
          | none => none
          | some (e, _) =>
            match get_file_type (FileKind.type e.ftype) with
            | .error er => some (.fail er)
            | .ok kind =>
              some (.found e.inumber ((idx <<< 56) ||| e.tag) kind e.name)
        else
          match Dir2DataEntry.get_length (raw.drop off) with
          | none => none
          | some len => dir2NextInner raw idx fuel (off + len.toNat) true
    else some (.offEnd nxt)

/-- The outer block loop of `Dir2Leaf::next` (dir3_leaf.rs lines 148-195):
at the top of each pass a zero offset is bumped to the data-header size, the
current block is scanned, and on falling off the end the loop advances to
the next data block (returning `ENOENT` when there is none). -/
def dir2NextOuter (blocks : List (List Nat)) (fuel : Nat) (idx : Nat)
    (off : Nat) (nxt : Bool) :
    Option (Except Int (Nat × Nat × FileType × List Nat)) :=
  match fuel with
  | 0 => none
  | fuel + 1 =>
    let off := if off = 0 then Dir3DataHdr.SIZE else off
    match blocks.get? idx with
    | none => none
    | some raw =>
      match dir2NextInner raw idx (raw.length + 1) off nxt with
      | none => none
      | some (.fail e) => some (.error e)
      | some (.found ino cookie kind name) => some (.ok (ino, cookie, kind, name))
      | some (.offEnd nxt2) =>
        if idx + 1 ≥ blocks.length then some (.error ENOENT)
        else dir2NextOuter blocks fuel (idx + 1) 0 nxt2

/-- `Dir2Leaf::next` (dir3_leaf.rs lines 130-198): split the 64-bit cookie
into a data-block index (top 8 bits) and an offset within the block (low 56
bits); `next` starts `true` only for offset 0. -/
def Dir2Leaf.next (blocks : List (List Nat)) (fuel : Nat) (offset : Nat) :
    Option (Except Int (Nat × Nat × FileType × List Nat)) :=
  let idx := offset >>> 56
  if idx ≥ blocks.length then some (.error ENOENT)
  else
    let off := offset &&& (2 ^ 56 - 1)
    dir2NextOuter blocks fuel idx off (off = 0)

/-! ## file.rs : `File::read`

`get_extent` (the `File` trait's extent resolver) and `Sb::fsb_to_offset`
(sb.rs, not under src/) are the seams of `read`; they are taken as function
parameters.  The backing image is `disk : Nat → Nat`, a byte for every
offset, so `read_exact` never hits EOF in the model. -/

/-- Superblock geometry used by `File::read`
(`sb_blocksize = 2 ^ sb_blocklog`). -/
structure SbGeom where
  sb_blocksize : Nat
  sb_blocklog : Nat
deriving DecidableEq, Repr

/-- The `while remaining_size > 0` loop of `File::read` (file.rs lines
60-88).  Each pass: look up the extent for `logicalBlock`, take
`z = min remaining (blocks·blocksize - blockOffset)` bytes, round `z` up to
whole blocks for the disk read; a present extent is read and then truncated
back to `z` bytes, while a hole appends `z_round_up` zero bytes (the `else`
branch of the source has no truncating `resize`). -/
def fileReadLoop (sb : SbGeom) (getExtent : Nat → Option Nat × Nat)
    (fsbToOffset : Nat → Nat) (disk : Nat → Nat) (fuel : Nat)
    (logicalBlock blockOffset remaining : Nat) (data : List Nat) :
    Option (List Nat) :=
  match fuel with
  | 0 => none
  | fuel + 1 =>
    if remaining = 0 then some data
    else
      let (blk, blocks) := getExtent logicalBlock
      if blocks <<< sb.sb_blocklog < blockOffset then none
      else
        let z := min remaining (blocks <<< sb.sb_blocklog - blockOffset)
        let zRoundUp :=
          if 0 < z &&& ((1 <<< sb.sb_blocklog) - 1) then
            z + sb.sb_blocksize - (z &&& ((1 <<< sb.sb_blocklog) - 1))
          else z
        let chunk :=
          match blk with
          | some blk =>
            ((List.range zRoundUp).map
              (fun i => disk (fsbToOffset blk + blockOffset + i))).take z
          | none => List.replicate zRoundUp 0
        fileReadLoop sb getExtent fsbToOffset disk fuel (logicalBlock + blocks)
          0 (remaining - z) (data ++ chunk)

/-- `File::read` (file.rs lines 46-91).  A non-block-aligned offset fails
the `assert_eq!` (a panic, `none`); `u64::try_from(self.size() - offset)`
and `u64::try_from(offset >> sb_blocklog)` panic when negative. -/
def File.read (sb : SbGeom) (getExtent : Nat → Option Nat × Nat)
    (fsbToOffset : Nat → Nat) (disk : Nat → Nat) (fsize : Int) (fuel : Nat)
    (offset : Int) (size : Nat) : Option (List Nat) :=
  if offset % (sb.sb_blocksize : Int) = 0 then
    if fsize - offset < 0 then none
    else
      let remaining := min size (fsize - offset).toNat
      if offset < 0 then none
      else
        fileReadLoop sb getExtent fsbToOffset disk fuel
          (offset.toNat >>> sb.sb_blocklog)
          (offset.toNat &&& ((1 <<< sb.sb_blocklog) - 1)) remaining []
  else none

/-! ## attr_bptree.rs / attr_node.rs : extended-attribute lookup

attr.rs, da_btree.rs and btree.rs are not under src/, so the attribute leaf
block, `AttrLeafblock::get_size`, `BtreeRoot::map_block` and the
intermediate-node engine are modelled from the spec (as parameters where the
source only calls through them). -/

/-- Attribute leaf index entry: `(hashval, nameidx)` of the fields this
development needs. -/
structure AttrLeafEntry where
  hashval : Nat
  nameidx : Nat
deriving DecidableEq, Repr

/-- Modelled from the spec: the decoded `AttrLeafblock` header fields used
by attr_bptree.rs — the forward-sibling pointer `hdr.info.forw` and the
`entries` vector ordered by hash (attr.rs is not under src/). -/
structure AttrLeafblock where
  forw : Nat
  entries : List AttrLeafEntry
deriving DecidableEq, Repr

/-- `leaf.entries.last().map(|e| e.hashval)` (attr_bptree.rs line 121). -/
def AttrLeafblock.lastHashval (leaf : AttrLeafblock) : Option Nat :=
  leaf.entries.getLast?.map (fun e => e.hashval)

/-- Modelled from the spec: `XfsDa3Intnode::lookup` (da_btree.rs is not
under src/) — search the children, whose keys ascend, for the smallest
`hashval` key that is `≥ hash`; each child is a `(max-hash, child-block)`
pair; with no such child, fail `ENOENT`. -/
def XfsDa3Intnode.lookup (ents : List (Nat × Nat)) (hash : Nat) :
    Except Int Nat :=
  match ents.find? (fun e => hash ≤ e.1) with
  | some e => .ok e.2
  | none => .error ENOENT

/-- The `.map_err` closure of `AttrNode::get` (attr_node.rs lines 141-143)
and `AttrBtree::get_size` (attr_bptree.rs lines 105-111): an attribute-level
`ENOENT` becomes `ENOATTR`. -/
def attrMapNotFound (e : Int) : Int := if e = ENOENT then ENOATTR else e

/-- The `loop` of `AttrBtree::get_size` (attr_bptree.rs lines 116-129):
decode the leaf at the current block; if its `get_size` succeeds return the
size; on `ENOATTR` with the queried hash equal to the last entry's hashval,
map `hdr.info.forw` through the extent btree (`?` propagates its error) and
continue there; any other error is returned.  `readLeaf` stands for the
seek-and-`AttrLeafblock::from` at a given block, `leafGetSize` for
`AttrLeafblock::get_size` (attr.rs, not under src/). -/
def attrGetSizeLoop (mapBlock : Nat → Except Int Nat)
    (readLeaf : Nat → Option AttrLeafblock)
    (leafGetSize : AttrLeafblock → Nat → Except Int Nat) (hash : Nat)
    (fuel : Nat) (blk : Nat) : Option (Except Int Nat) :=
  match fuel with
  | 0 => none
  | fuel + 1 =>
    match readLeaf blk with
    | none => none
    | some leaf =>
      match leafGetSize leaf hash with
      | .ok l => some (.ok l)
      | .error e =>
        if e = ENOATTR ∧ leaf.lastHashval = some hash then
          match mapBlock leaf.forw with
          | .error e2 => some (.error e2)
          | .ok nb => attrGetSizeLoop mapBlock readLeaf leafGetSize hash fuel nb
        else some (.error e)

/-- `AttrBtree::get_size` (attr_bptree.rs lines 91-130): the root
intermediate node (already fetched through `map_block 0`) is looked up by
hash, with `ENOENT` mapped to `ENOATTR`; then the sibling-walking loop runs
from the returned leaf block. -/
def AttrBtree.get_size (node : List (Nat × Nat))
    (mapBlock : Nat → Except Int Nat) (readLeaf : Nat → Option AttrLeafblock)
    (leafGetSize : AttrLeafblock → Nat → Except Int Nat) (hash fuel : Nat) :
    Option (Except Int Nat) :=
  match (XfsDa3Intnode.lookup node hash).mapError attrMapNotFound with
  | .error e => some (.error e)
  | .ok blk => attrGetSizeLoop mapBlock readLeaf leafGetSize hash fuel blk

/-- `AttrBtree::get` (attr_bptree.rs lines 166-193): the intermediate-node
lookup's error is propagated by `?` with NO `map_err` (unlike `get_size` and
`AttrNode::get`); then the leaf at the returned block is decoded and
`AttrLeafblock::get` (attr.rs, not under src/, taken as a parameter) is
applied and wrapped in `Ok`. -/
def AttrBtree.get (node : List (Nat × Nat))
    (readLeaf : Nat → Option AttrLeafblock)
    (leafGet : AttrLeafblock → Nat → List Nat) (hash : Nat) :
    Option (Except Int (List Nat)) :=
  match XfsDa3Intnode.lookup node hash with
  | .error e => some (.error e)
  | .ok blk =>
    match readLeaf blk with
    | none => none
    | some leaf => some (.ok (leafGet leaf hash))

/-- `AttrNode::get` (attr_node.rs lines 136-151): the intermediate-node
lookup's `ENOENT` is mapped to `ENOATTR`; then the leaf at the returned
block is read and `AttrLeafblock::get` (attr.rs, not under src/) produces
the result. -/
def AttrNode.get (node : List (Nat × Nat))
    (readLeaf : Nat → Option AttrLeafblock)
    (leafGet : AttrLeafblock → Nat → Except Int (List Nat)) (hash : Nat) :
    Option (Except Int (List Nat)) :=
  match (XfsDa3Intnode.lookup node hash).mapError attrMapNotFound with
  | .error e => some (.error e)
  | .ok blk =>
    match readLeaf blk with
    | none => none
    | some leaf => some (leafGet leaf hash)

/-! ## attr_node.rs : `AttrNode::map_dblock` and its extent list -/

/-- `bmbt_rec::BmbtRec`'s fields used by `map_dblock` (the decoded BMBT
extent record). -/
structure BmbtRec where
  br_startoff : Nat
  br_startblock : Nat
  br_blockcount : Nat
deriving DecidableEq, Repr

instance : Inhabited BmbtRec := ⟨⟨0, 0, 0⟩⟩

/-- `slice::partition_point` as the Rust standard library implements it (a
`binary_search_by` on `[left, right)`), with fuel standing in for the
decreasing measure `right - left`. -/
def partitionPointLoop (pred : BmbtRec → Bool) (l : List BmbtRec)
    (fuel left right : Nat) : Nat :=
  match fuel with
  | 0 => left
  | fuel + 1 =>
    if left < right then
      let mid := (left + right) / 2
      if pred (l.getD mid default) then partitionPointLoop pred l fuel (mid + 1) right
      else partitionPointLoop pred l fuel left mid
    else left

/-- `self.bmx.partition_point(pred)`. -/
def partition_point (pred : BmbtRec → Bool) (l : List BmbtRec) : Nat :=
  partitionPointLoop pred l (l.length + 1) 0 l.length

/-- `AttrNode::map_dblock` (attr_node.rs lines 66-73): partition-point on
`br_startoff <= dblock`, then index `bmx[i - 1]` (for `i = 0` the `usize`
subtraction underflows — an out-of-bounds panic either way), then
`assert!(i > 0 && entry.br_startoff <= dblock && entry.br_startoff +
entry.br_blockcount > dblock)`; on success return
`br_startblock + (dblock - br_startoff)`. -/
def AttrNode.map_dblock (bmx : List BmbtRec) (dblock : Nat) : Option Nat :=
  let i := partition_point (fun r => decide (r.br_startoff ≤ dblock)) bmx
  if i = 0 then none
  else
    match bmx.get? (i - 1) with
    | none => none
    | some entry =>
      if 0 < i ∧ entry.br_startoff ≤ dblock ∧
          dblock < entry.br_startoff + entry.br_blockcount then
        some (entry.br_startblock + (dblock - entry.br_startoff))
      else none

/-! ## dir3.rs : `Dir2LeafDisk::get_address` / `Dir2LeafNDisk::get_address` -/

/-- `dir3::Dir2LeafEntry`: `(hashval, address)`. -/
structure Dir2LeafEntry where
  hashval : Nat
  address : Nat
deriving DecidableEq, Repr

instance : Inhabited Dir2LeafEntry := ⟨⟨0, 0⟩⟩

/-- `usize` subtraction with release-build (wrapping) semantics. -/
def usizeWrappingSub (a b : Nat) : Nat := (a + 2 ^ 64 - b) % 2 ^ 64

/-- `usize` subtraction under debug assertions: underflow panics. -/
def usizeCheckedSub (a b : Nat) : Option Nat :=
  if b ≤ a then some (a - b) else none

/-- `usize as i64` (two's-complement reinterpretation). -/
def i64ofU64 (n : Nat) : Int := if n < 2 ^ 63 then (n : Int) else (n : Int) - 2 ^ 64

/-- The `while low <= high` binary-search loop shared verbatim by
`Dir2LeafDisk::get_address` (dir3.rs lines 410-431) and
`Dir2LeafNDisk::get_address` (dir3.rs lines 318-339):
`mid = low + (high - low) / 2`, compare `ents[mid].hashval` with the query,
shrink the side, return `Ok(entry.address)` on equality, `Err(ENOENT)` when
the range empties.  Indexing out of bounds is `none`; fuel covers the
decreasing measure `high - low + 1`. -/
def getAddressLoop (ents : List Dir2LeafEntry) (hash : Nat) (fuel : Nat)
    (low high : Int) : Option (Except Int Nat) :=
  match fuel with
  | 0 => none
  | fuel + 1 =>
    if low ≤ high then
      let mid := low + (high - low) / 2
      match ents.get? mid.toNat with
      | none => none
      | some entry =>
        if hash < entry.hashval then getAddressLoop ents hash fuel low (mid - 1)
        else if entry.hashval < hash then
          getAddressLoop ents hash fuel (mid + 1) high
        else some (.ok entry.address)
    else some (.error ENOENT)

/-- `Dir2LeafDisk::get_address` (dir3.rs lines 410-431), release semantics:
`high` is initialised to `(self.ents.len() - 1) as i64`, the `usize`
subtraction wrapping to `u64::MAX` (so `-1` as `i64`) for an empty `ents`. -/
def Dir2LeafDisk.get_address (ents : List Dir2LeafEntry) (hash : Nat) :
    Option (Except Int Nat) :=
  getAddressLoop ents hash (ents.length + 1) 0
    (i64ofU64 (usizeWrappingSub ents.length 1))

/-- `Dir2LeafNDisk::get_address` (dir3.rs lines 318-339): textually identical
to `Dir2LeafDisk::get_address`. -/
def Dir2LeafNDisk.get_address (ents : List Dir2LeafEntry) (hash : Nat) :
    Option (Except Int Nat) :=
  getAddressLoop ents hash (ents.length + 1) 0
    (i64ofU64 (usizeWrappingSub ents.length 1))

/-- `Dir2LeafDisk::get_address` under debug assertions: the initial
`self.ents.len() - 1` is a checked `usize` subtraction, so an empty `ents`
panics before the loop runs. -/
def Dir2LeafDisk.get_address_dbg (ents : List Dir2LeafEntry) (hash : Nat) :
    Option (Except Int Nat) :=
  match usizeCheckedSub ents.length 1 with
  | none => none
  | some h => getAddressLoop ents hash (ents.length + 1) 0 (h : Int)

/-! ## The sibling-walk relation for attribute `get_size` (claim C5) -/

/-- Characterization of the leaf chain visited by the `loop` of
`AttrBtree::get_size`: from block `blk` the result `r` arises either
directly from the leaf at `blk`, or — exactly when that leaf reports
`ENOATTR` and the queried hash equals its last entry's hashval — from
continuing into the forward sibling `hdr.info.forw`. -/
inductive SibWalk (mapBlock : Nat → Except Int Nat)
    (readLeaf : Nat → Option AttrLeafblock)
    (leafGetSize : AttrLeafblock → Nat → Except Int Nat) (hash : Nat) :
    Nat → Except Int Nat → Prop where
  | ok {blk leaf v} : readLeaf blk = some leaf →
      leafGetSize leaf hash = .ok v →
      SibWalk mapBlock readLeaf leafGetSize hash blk (.ok v)
  | stop {blk leaf e} : readLeaf blk = some leaf →
      leafGetSize leaf hash = .error e →
      ¬(e = ENOATTR ∧ leaf.lastHashval = some hash) →
      SibWalk mapBlock readLeaf leafGetSize hash blk (.error e)
  | mapFail {blk leaf e2} : readLeaf blk = some leaf →
      leafGetSize leaf hash = .error ENOATTR →
      leaf.lastHashval = some hash →
      mapBlock leaf.forw = .error e2 →
      SibWalk mapBlock readLeaf leafGetSize hash blk (.error e2)
  | step {blk leaf nb r} : readLeaf blk = some leaf →
      leafGetSize leaf hash = .error ENOATTR →
      leaf.lastHashval = some hash →
      mapBlock leaf.forw = .ok nb →
      SibWalk mapBlock readLeaf leafGetSize hash nb r →
      SibWalk mapBlock readLeaf leafGetSize hash blk r

/-- Modelled from the spec: `AttrLeafblock::get` (attr.rs is not under
src/), the leaf-level lookup that `AttrNode::get` and `AttrBtree::get`
delegate to.  The per-leaf search itself (hash binary-search, name
comparison among equal-hash entries, local/remote value resolution) is the
parameter `leafLookup`; around it, per the spec's collision rule, when the
leaf reports not-found (`ENOATTR`) and the queried hash equals the leaf's
last entry's hashval, the forward sibling `hdr.info.forw` is mapped through
the caller-supplied `map_dblock` callback, the leaf there is decoded, and
the search continues; otherwise not-found is reported. -/
def AttrLeafblock.get (mapDblock : Nat → Option Nat)
    (readLeafAt : Nat → Option AttrLeafblock)
    (leafLookup : AttrLeafblock → Nat → Except Int (List Nat)) (hash : Nat)
    (fuel : Nat) (leaf : AttrLeafblock) : Option (Except Int (List Nat)) :=
  match fuel with
  | 0 => none
  | fuel + 1 =>
    match leafLookup leaf hash with
    | .ok v => some (.ok v)
    | .error e =>
      if e = ENOATTR ∧ leaf.lastHashval = some hash then
        match mapDblock leaf.forw with
        | none => none
        | some fsb =>
          match readLeafAt fsb with
          | none => none
          | some leaf2 =>
            AttrLeafblock.get mapDblock readLeafAt leafLookup hash fuel leaf2
      else some (.error e)

/-- Characterization of the leaf chain visited by the (spec-modelled)
`AttrLeafblock::get`: from `leaf` the result `r` arises either directly
from this leaf's own search, or — exactly when that search reports
`ENOATTR` and the queried hash equals the leaf's last entry's hashval —
from continuing into the forward sibling. -/
inductive SibWalkGet (mapDblock : Nat → Option Nat)
    (readLeafAt : Nat → Option AttrLeafblock)
    (leafLookup : AttrLeafblock → Nat → Except Int (List Nat)) (hash : Nat) :
    AttrLeafblock → Except Int (List Nat) → Prop where
  | ok {leaf v} : leafLookup leaf hash = .ok v →
      SibWalkGet mapDblock readLeafAt leafLookup hash leaf (.ok v)
  | stop {leaf e} : leafLookup leaf hash = .error e →
      ¬(e = ENOATTR ∧ leaf.lastHashval = some hash) →
      SibWalkGet mapDblock readLeafAt leafLookup hash leaf (.error e)
  | step {leaf fsb leaf2 r} : leafLookup leaf hash = .error ENOATTR →
      leaf.lastHashval = some hash → mapDblock leaf.forw = some fsb →
      readLeafAt fsb = some leaf2 →
      SibWalkGet mapDblock readLeafAt leafLookup hash leaf2 r →
      SibWalkGet mapDblock readLeafAt leafLookup hash leaf r

/-! ## Concrete data used by the counterexamples and witnesses -/

/-- A well-formed on-disk directory data entry at block offset 64:
inode 100, namelen 5 (name `aaaaa`), ftype 1 (regular file), 7 pad bytes,
tag 64 (its own offset); 24 bytes in all, `roundup(5 + 12, 8)`. -/
def exEntryA : List Nat :=
  [0, 0, 0, 0, 0, 0, 0, 100, 5, 97, 97, 97, 97, 97, 1, 0, 0, 0, 0, 0, 0, 0, 0, 64]

/-- A well-formed on-disk directory data entry at block offset 88:
inode 200, namelen 3 (name `bbb`), ftype 1, 1 pad byte, tag 88; 16 bytes. -/
def exEntryB : List Nat := [0, 0, 0, 0, 0, 0, 0, 200, 3, 98, 98, 98, 1, 0, 0, 88]

/-- An unused (free) directory record at block offset 104: freetag 0xffff,
length 24, tag 104; fills the block to its end. -/
def exFree : List Nat := [255, 255, 0, 24] ++ List.replicate 18 0 ++ [0, 104]

/-- A 128-byte directory data block: a 64-byte `Dir3DataHdr`, the live
entries `exEntryA` (offset 64) and `exEntryB` (offset 88), and a free
record (offset 104). -/
def exBlock : List Nat := List.replicate 64 0 ++ exEntryA ++ exEntryB ++ exFree

/-- The data blocks of a one-data-block leaf directory. -/
def exBlocks : List (List Nat) := [exBlock]

/-- Attribute leaf 1 for the C5 witness: forward sibling 2, last (only)
entry hash 5. -/
def cLeaf1 : AttrLeafblock := ⟨2, [⟨5, 0⟩]⟩

/-- Attribute leaf 2 for the C5 witness: no forward sibling, entry hash 5. -/
def cLeaf2 : AttrLeafblock := ⟨0, [⟨5, 1⟩]⟩

/-- C5 witness block map: the identity on attribute-fork block numbers. -/
def cMapBlock : Nat → Except Int Nat := fun n => .ok n

/-- C5 witness leaf reader: block 1 holds `cLeaf1`, block 2 holds `cLeaf2`. -/
def cReadLeaf : Nat → Option AttrLeafblock := fun blk =>
  if blk = 1 then some cLeaf1 else if blk = 2 then some cLeaf2 else none

/-- C5 witness leaf-level `get_size`: the hash-5 name sits in leaf 2 (size
7); leaf 1 only has a colliding name, so it reports `ENOATTR`. -/
def cLeafGetSize : AttrLeafblock → Nat → Except Int Nat := fun leaf _ =>
  if leaf.forw = 2 then .error ENOATTR else .ok 7

/-- C5 witness `map_dblock` callback for the leaf-level get walk. -/
def cMapD : Nat → Option Nat := fun n => some n

/-- C5 witness per-leaf lookup: the hash-5 name's value `[7]` sits in leaf
2; leaf 1 only holds a colliding name, so its own search reports
`ENOATTR`. -/
def cLeafLookup : AttrLeafblock → Nat → Except Int (List Nat) := fun leaf _ =>
  if leaf.forw = 2 then .error ENOATTR else .ok [7]

/-- A well-formed data block whose two live entries have namelen 4 (a
length `Dir2DataEntry::get_length` computes correctly): inode 11 (name
`aaaa`, tag 64) at offset 64, inode 22 (name `bbbb`, tag 80) at offset 80,
then a 32-byte free record filling the block to 128 bytes. -/
def gBlock : List Nat :=
  List.replicate 64 0 ++
  [0, 0, 0, 0, 0, 0, 0, 11, 4, 97, 97, 97, 97, 1, 0, 64] ++
  [0, 0, 0, 0, 0, 0, 0, 22, 4, 98, 98, 98, 98, 1, 0, 80] ++
  ([255, 255, 0, 32] ++ List.replicate 26 0 ++ [0, 96])

/-! ## Theorems -/

/-- Claim C1.  The claim states that `File::read(offset, size)` returns
exactly `min(size, file_size - offset)` bytes even over a hole.  The code
contradicts it: for blocksize 16 (blocklog 4), a 21-byte file whose block 1
is a hole, `read(16, 5)` should return the 5 remaining bytes, but the hole
branch keeps the sector-rounded-up buffer, returning 16 zero bytes. -/
theorem c1_hole_read_returns_rounded_up :
    File.read ⟨16, 4⟩ (fun _ => (none, 1)) id (fun _ => 0) 21 2 16 5
      = some (List.replicate 16 0) ∧
    min 5 (((21 : Int) - 16).toNat) = 5 ∧
    (List.replicate 16 (0 : Nat)).length = 16 ∧ (16 : Nat) ≠ 5 :=
  ⟨rfl, rfl, rfl, by decide⟩

/-- Claim C2.  The claim states that `Dir2DataEntry::get_length`,
`Dir2DataEntry::length` and the bytes consumed by `Dir2DataEntry::decode`
all equal `roundup(namelen + 12, 8)`.  The code contradicts it at
`namelen = 5` (`exEntryA`): `get_length` and `length` compute
`roundup(5 + 11, 8) = 16` while `decode` consumes
`roundup(5 + 12, 8) = 24`. -/
theorem c2_get_length_disagrees_with_decode :
    Dir2DataEntry.get_length exEntryA = some 16 ∧
    Dir2DataEntry.length ⟨100, [97, 97, 97, 97, 97], 1, 64⟩ = 16 ∧
    (Dir2DataEntry.decode exEntryA).map Prod.snd = some 24 ∧
    ((5 + 12) + 8 - 1) / 8 * 8 = 24 :=
  ⟨rfl, rfl, rfl, rfl⟩

set_option maxRecDepth 4000 in
/-- Claim C3.  The claim states that iterating `Dir2Leaf::next` from cookie
0, feeding back each cookie, enumerates every live entry exactly once and
ends with `ENOENT`.  On `exBlocks` — live entries at offsets 64 (namelen 5)
and 88 — the first call returns the offset-64 entry with cookie 64, but the
resumed call skips it by `get_length` (16 bytes instead of the 24 `decode`
consumes), misparses the entry's padding/tag region (decoding ftype 0), and
aborts with `ENOENT`: the live offset-88 entry is never enumerated.  As a
control, on `gBlock` — the same shape but namelen-4 entries, for which
`get_length` is correct — the same iteration enumerates both live entries
and then ends with `ENOENT`, isolating `get_length` as the cause. -/
theorem c3_resume_loses_live_entry :
    Dir2Leaf.next exBlocks 8 0
      = some (.ok (100, 64, .regularFile, [97, 97, 97, 97, 97])) ∧
    Dir2Leaf.next exBlocks 8 64 = some (.error ENOENT) ∧
    (Dir2DataEntry.decode (exBlock.drop 88)).map
        (fun p => (p.1.inumber, p.1.tag, p.2)) = some (200, 88, 16) ∧
    Dir2DataEntry.get_length (exBlock.drop 64) = some 16 ∧
    (Dir2DataEntry.decode (exBlock.drop 64)).map Prod.snd = some 24 ∧
    Dir2Leaf.next [gBlock] 8 0
      = some (.ok (11, 64, .regularFile, [97, 97, 97, 97])) ∧
    Dir2Leaf.next [gBlock] 8 64
      = some (.ok (22, 80, .regularFile, [98, 98, 98, 98])) ∧
    Dir2Leaf.next [gBlock] 8 80 = some (.error ENOENT) :=
  ⟨rfl, rfl, rfl, rfl, rfl, rfl, rfl, rfl⟩

set_option maxRecDepth 4000 in
/-- Claim C4, counterexample.  The claim states that the cookie returned
with an entry corresponds to the entry immediately after the one returned.
On `exBlocks`, `next(0)` returns the offset-64 entry together with cookie
64 — the returned entry's own offset (its `tag` field) — while the entry
after it sits at offset 88. -/
theorem c4_cookie_is_returned_entry :
    Dir2Leaf.next exBlocks 8 0
      = some (.ok (100, 64, .regularFile, [97, 97, 97, 97, 97])) ∧
    (Dir2DataEntry.decode (exBlock.drop 64)).map
        (fun p => (p.1.inumber, p.1.name, p.1.tag))
      = some (100, [97, 97, 97, 97, 97], 64) ∧
    (Dir2DataEntry.decode (exBlock.drop 88)).map (fun p => p.1.tag)
      = some 88 ∧
    (64 : Nat) ≠ 88 :=
  ⟨rfl, rfl, rfl, by decide⟩

/-- Claim C6.  The claim states that node- and btree-shape attribute `get`
and `get_size` never surface a bare `ENOENT` from the intermediate-node
lookup.  The code contradicts it in `AttrBtree::get`: with a root node whose
largest hash key is 5, a query of hash 10 makes `XfsDa3Intnode::lookup`
fail `ENOENT`, which `AttrBtree::get` propagates unmapped — while
`AttrBtree::get_size` and `AttrNode::get` map the same failure to
`ENOATTR`. -/
theorem c6_attr_btree_get_surfaces_enoent :
    AttrBtree.get [(5, 3)] (fun _ => some cLeaf2) (fun _ _ => []) 10
      = some (.error ENOENT) ∧
    AttrBtree.get_size [(5, 3)] cMapBlock (fun _ => some cLeaf2)
        (fun _ _ => .error ENOATTR) 10 3 = some (.error ENOATTR) ∧
    AttrNode.get [(5, 3)] (fun _ => some cLeaf2)
        (fun _ _ => .error ENOATTR) 10 = some (.error ENOATTR) ∧
    ENOENT ≠ ENOATTR :=
  ⟨rfl, rfl, rfl, by decide⟩

/-- Claim C7, counterexample.  The claim states a misaligned `File::read`
fails with `EINVAL`.  In the code `File::read` returns a plain `Vec<u8>` —
there is no error channel at all — and a misaligned offset fails the
`assert_eq!`, i.e. panics (`none`): at blocksize 16, offset 1 produces
neither data nor an errno. -/
theorem c7_misaligned_read_is_a_panic :
    File.read ⟨16, 4⟩ (fun _ => (none, 1)) id (fun _ => 0) 21 2 1 5 = none :=
  rfl

/-- Claim C7, amended: for every offset that is not a multiple of the
superblock block size, `File::read` panics on its alignment assertion
(returning no data and no errno), regardless of the file, extents, disk
contents, size or fuel. -/
theorem c7_misaligned_read_panics (sb : SbGeom)
    (getExtent : Nat → Option Nat × Nat) (fsbToOffset : Nat → Nat)
    (disk : Nat → Nat) (fsize : Int) (fuel : Nat) (offset : Int) (size : Nat)
    (h : offset % (sb.sb_blocksize : Int) ≠ 0) :
    File.read sb getExtent fsbToOffset disk fsize fuel offset size = none := by
  simp only [File.read, if_neg h]

/-- Witness for `c7_misaligned_read_panics` at offset 1, blocksize 16. -/
theorem c7_misaligned_read_panics_witness :
    (1 : Int) % ((16 : Nat) : Int) ≠ 0 ∧
    File.read ⟨16, 4⟩ (fun _ => (some 0, 1)) id (fun _ => 7) 21 2 1 5 = none :=
  ⟨by decide,
   c7_misaligned_read_panics ⟨16, 4⟩ (fun _ => (some 0, 1)) id (fun _ => 7)
     21 2 1 5 (by decide)⟩

/-- Claim C9, counterexample.  The claim states `get_address` evaluates
without integer underflow even when `ents` is empty.  The initialisation
`(self.ents.len() - 1) as i64` underflows `usize` for an empty `ents`: under
debug assertions the subtraction panics before the loop runs (in a release
build it wraps to `u64::MAX`). -/
theorem c9_empty_ents_high_bound_underflows :
    usizeCheckedSub ([] : List Dir2LeafEntry).length 1 = none ∧
    Dir2LeafDisk.get_address_dbg [] 7 = none ∧
    usizeWrappingSub ([] : List Dir2LeafEntry).length 1 = 2 ^ 64 - 1 ∧
    i64ofU64 (usizeWrappingSub ([] : List Dir2LeafEntry).length 1) = -1 :=
  ⟨rfl, rfl, by norm_num [usizeWrappingSub], by norm_num [usizeWrappingSub, i64ofU64]⟩

/-- Claim C10: for every directory-entry file-type byte other than 1
(regular file), 2 (directory) and 7 (symlink), and for every mode whose
`S_IFMT` class is none of regular/directory/symlink, `get_file_type`
returns `Err(ENOENT)`. -/
theorem c10_unknown_file_type_is_enoent :
    (∀ t : Nat, t ≠ XFS_DIR3_FT_REG_FILE → t ≠ XFS_DIR3_FT_DIR →
      t ≠ XFS_DIR3_FT_SYMLINK →
      get_file_type (FileKind.type t) = .error ENOENT) ∧
    (∀ m : Nat, m &&& S_IFMT ≠ S_IFREG → m &&& S_IFMT ≠ S_IFDIR →
      m &&& S_IFMT ≠ S_IFLNK →
      get_file_type (FileKind.mode m) = .error ENOENT) := by
  constructor
  · intro t h1 h2 h3
    simp only [get_file_type, if_neg h1, if_neg h2, if_neg h3]
  · intro m h1 h2 h3
    simp only [get_file_type, if_neg h1, if_neg h2, if_neg h3]

/-- Witness for `c10_unknown_file_type_is_enoent`: ftype byte 3 (character
device) and mode class `0x1000` (FIFO) both report `ENOENT`. -/
theorem c10_unknown_file_type_is_enoent_witness :
    get_file_type (FileKind.type 3) = .error ENOENT ∧
    get_file_type (FileKind.mode 0x1000) = .error ENOENT :=
  ⟨c10_unknown_file_type_is_enoent.1 3 (by decide) (by decide) (by decide),
   c10_unknown_file_type_is_enoent.2 0x1000 (by decide) (by decide) (by decide)⟩


/-- Every `found` result of the inner scan of `Dir2Leaf::next` decodes an
entry somewhere in the block and returns that entry's fields, with the
cookie built from the scanned block index and the returned entry's own
`tag` field. -/
theorem dir2NextInner_found_shape (raw : List Nat) (idx : Nat) :
    ∀ (fuel off : Nat) (nxt : Bool) (ino cookie : Nat) (kind : FileType)
      (name : List Nat),
      dir2NextInner raw idx fuel off nxt = some (.found ino cookie kind name) →
      ∃ off2 e c, Dir2DataEntry.decode (raw.drop off2) = some (e, c) ∧
        ino = e.inumber ∧ cookie = (idx <<< 56) ||| e.tag ∧ name = e.name ∧
        get_file_type (FileKind.type e.ftype) = .ok kind := by
  intro fuel
  induction fuel with
  | zero =>
    intro off nxt ino cookie kind name h
    simp [dir2NextInner] at h
  | succ fuel ih =>
    intro off nxt ino cookie kind name h
    simp only [dir2NextInner] at h
    split at h
    case isTrue =>
      split at h
      · exact absurd h (by simp)
      · split at h
        case isTrue =>
          split at h
          · exact absurd h (by simp)
          · exact ih _ _ _ _ _ _ h
        case isFalse =>
          split at h
          case isTrue =>
            split at h
            · exact absurd h (by simp)
            · split at h
              · exact absurd h (by simp)
              · rename_i e c hdec xs kind2 hk
                rw [Option.some_inj] at h
                cases h
                exact ⟨off, e, c, hdec, rfl, rfl, rfl, hk⟩
          case isFalse =>
            split at h
            · exact absurd h (by simp)
            · exact ih _ _ _ _ _ _ h
    case isFalse =>
      exact absurd h (by simp)

/-- Every `Ok` result of the outer block loop of `Dir2Leaf::next` comes
from decoding an entry in one of the directory's data blocks, with the
cookie packing that block's index and the returned entry's own `tag`. -/
theorem dir2NextOuter_ok_shape (blocks : List (List Nat)) :
    ∀ (fuel idx off : Nat) (nxt : Bool) (ino cookie : Nat) (kind : FileType)
      (name : List Nat),
      dir2NextOuter blocks fuel idx off nxt = some (.ok (ino, cookie, kind, name)) →
      ∃ idx2 raw off2 e c, blocks.get? idx2 = some raw ∧
        Dir2DataEntry.decode (raw.drop off2) = some (e, c) ∧
        ino = e.inumber ∧ cookie = (idx2 <<< 56) ||| e.tag ∧ name = e.name := by
  intro fuel
  induction fuel with
  | zero =>
    intro idx off nxt ino cookie kind name h
    simp [dir2NextOuter] at h
  | succ fuel ih =>
    intro idx off nxt ino cookie kind name h
    simp only [dir2NextOuter] at h
    split at h
    · exact absurd h (by simp)
    · split at h
      · exact absurd h (by simp)
      · -- fail case
        exact absurd h (by simp)
      · -- found case
        rename_i raw hraw xs ino2 cookie2 kind2 name2 hfound
        rw [Option.some_inj] at h
        cases h
        obtain ⟨off2, e, c, hdec, h1, h2, h3, _⟩ :=
          dir2NextInner_found_shape raw idx _ _ _ _ _ _ _ hfound
        exact ⟨idx, raw, off2, e, c, hraw, hdec, h1, h2, h3⟩
      · -- offEnd case
        split at h
        · exact absurd h (by simp)
        · exact ih _ _ _ _ _ _ _ h

/-- Claim C4, amended: every cookie returned by `Dir2Leaf::next` packs a
data-block index in the top 8 bits and, in the low 56 bits, the `tag` field
of the entry being returned — i.e. the returned entry's own byte offset
within its block (for a well-formed block), not the offset of the entry
after it; and a resumed scan (`next == false`) at a live entry skips
exactly that entry, advancing by `get_length` and setting `next = true`
before emitting a following entry. -/
theorem c4_cookie_packs_returned_entry_tag :
    (∀ (blocks : List (List Nat)) (fuel offset ino cookie : Nat)
        (kind : FileType) (name : List Nat),
      Dir2Leaf.next blocks fuel offset
          = some (.ok (ino, cookie, kind, name)) →
      ∃ idx raw off e c, blocks.get? idx = some raw ∧
        Dir2DataEntry.decode (raw.drop off) = some (e, c) ∧
        ino = e.inumber ∧ cookie = (idx <<< 56) ||| e.tag ∧ name = e.name) ∧
    (∀ (raw : List Nat) (idx fuel off freetag : Nat) (len : Int),
      off < raw.length → u16BeAt raw off = some freetag →
      freetag ≠ 0xffff → Dir2DataEntry.get_length (raw.drop off) = some len →
      dir2NextInner raw idx (fuel + 1) off false
        = dir2NextInner raw idx fuel (off + len.toNat) true) := by
  constructor
  · intro blocks fuel offset ino cookie kind name h
    simp only [Dir2Leaf.next] at h
    split at h
    · exact absurd h (by simp)
    · exact dir2NextOuter_ok_shape blocks _ _ _ _ _ _ _ _ h
  · intro raw idx fuel off freetag len h1 h2 h3 h4
    simp only [dir2NextInner, if_pos h1, h2, if_neg h3, h4]
    rfl

set_option maxRecDepth 4000 in
/-- Witness for `c4_cookie_packs_returned_entry_tag`: the first entry
returned for `exBlocks` carries its own offset 64 as cookie, and the
resumed scan at offset 64 of `exBlock` advances to offset 80 with
`next = true`. -/
theorem c4_cookie_packs_returned_entry_tag_witness :
    (∃ idx raw off e c, exBlocks.get? idx = some raw ∧
      Dir2DataEntry.decode (raw.drop off) = some (e, c) ∧
      (100 : Nat) = e.inumber ∧ (64 : Nat) = (idx <<< 56) ||| e.tag ∧
      ([97, 97, 97, 97, 97] : List Nat) = e.name) ∧
    dir2NextInner exBlock 0 9 64 false = dir2NextInner exBlock 0 8 80 true :=
  ⟨c4_cookie_packs_returned_entry_tag.1 exBlocks 8 0 100 64 .regularFile
      [97, 97, 97, 97, 97] rfl,
   c4_cookie_packs_returned_entry_tag.2 exBlock 0 8 64 0 16 (by decide) rfl
      (by decide) rfl⟩

/-- Claim C5: (1) every result of the leaf loop of `AttrBtree::get_size`
arises through `SibWalk` — the search continues into the forward sibling
leaf `hdr.info.forw` exactly when the current leaf reports `ENOATTR` and
the queried hash equals the hashval of that leaf's last entry, and
otherwise the leaf's own result is reported; (2) every result of the
(spec-modelled) `AttrLeafblock::get` arises through the same rule
(`SibWalkGet`); (3) `AttrNode::get` resolves to exactly that leaf-level get
on the leaf selected by the intermediate-node lookup; and (4) so does
`AttrBtree::get`.  Together these settle the collision rule for the `get`
and `get_size` paths of the node- and btree-shape attribute views. -/
theorem c5_attr_sibling_walk :
    (∀ (mapBlock : Nat → Except Int Nat) (readLeaf : Nat → Option AttrLeafblock)
        (leafGetSize : AttrLeafblock → Nat → Except Int Nat)
        (hash fuel blk : Nat) (r : Except Int Nat),
      attrGetSizeLoop mapBlock readLeaf leafGetSize hash fuel blk = some r →
      SibWalk mapBlock readLeaf leafGetSize hash blk r) ∧
    (∀ (mapDblock : Nat → Option Nat) (readLeafAt : Nat → Option AttrLeafblock)
        (leafLookup : AttrLeafblock → Nat → Except Int (List Nat))
        (hash fuel : Nat) (leaf : AttrLeafblock) (r : Except Int (List Nat)),
      AttrLeafblock.get mapDblock readLeafAt leafLookup hash fuel leaf = some r →
      SibWalkGet mapDblock readLeafAt leafLookup hash leaf r) ∧
    (∀ (node : List (Nat × Nat)) (readLeaf : Nat → Option AttrLeafblock)
        (leafGet : AttrLeafblock → Nat → Except Int (List Nat))
        (hash dablk : Nat) (leaf : AttrLeafblock),
      (XfsDa3Intnode.lookup node hash).mapError attrMapNotFound = .ok dablk →
      readLeaf dablk = some leaf →
      AttrNode.get node readLeaf leafGet hash = some (leafGet leaf hash)) ∧
    (∀ (node : List (Nat × Nat)) (readLeaf : Nat → Option AttrLeafblock)
        (leafGet : AttrLeafblock → Nat → List Nat) (hash dablk : Nat)
        (leaf : AttrLeafblock),
      XfsDa3Intnode.lookup node hash = .ok dablk →
      readLeaf dablk = some leaf →
      AttrBtree.get node readLeaf leafGet hash = some (.ok (leafGet leaf hash))) := by
  refine ⟨?_, ?_, ?_, ?_⟩
  · intro mapBlock readLeaf leafGetSize hash fuel
    induction fuel with
    | zero =>
      intro blk r h
      simp [attrGetSizeLoop] at h
    | succ fuel ih =>
      intro blk r h
      simp only [attrGetSizeLoop] at h
      split at h
      · exact absurd h (by simp)
      · rename_i leaf hleaf
        split at h
        · rename_i v hv
          rw [Option.some_inj] at h
          cases h
          exact SibWalk.ok hleaf hv
        · rename_i e he
          split at h
          · rename_i hcond
            split at h
            · rename_i e2 hmap
              rw [Option.some_inj] at h
              cases h
              exact SibWalk.mapFail hleaf (hcond.1 ▸ he) hcond.2 hmap
            · rename_i nb hmap
              exact SibWalk.step hleaf (hcond.1 ▸ he) hcond.2 hmap (ih _ _ h)
          · rename_i hcond
            rw [Option.some_inj] at h
            cases h
            exact SibWalk.stop hleaf he hcond
  · intro mapDblock readLeafAt leafLookup hash fuel
    induction fuel with
    | zero =>
      intro leaf r h
      simp [AttrLeafblock.get] at h
    | succ fuel ih =>
      intro leaf r h
      simp only [AttrLeafblock.get] at h
      split at h
      · rename_i v hv
        rw [Option.some_inj] at h
        cases h
        exact SibWalkGet.ok hv
      · rename_i e he
        split at h
        · rename_i hcond
          split at h
          · exact absurd h (by simp)
          · rename_i fsb hmap
            split at h
            · exact absurd h (by simp)
            · rename_i leaf2 hread
              exact SibWalkGet.step (hcond.1 ▸ he) hcond.2 hmap hread (ih _ _ h)
        · rename_i hcond
          rw [Option.some_inj] at h
          cases h
          exact SibWalkGet.stop he hcond
  · intro node readLeaf leafGet hash dablk leaf hlk hrd
    simp only [AttrNode.get, hlk, hrd]
  · intro node readLeaf leafGet hash dablk leaf hlk hrd
    simp only [AttrBtree.get, hlk, hrd]

/-- Witness for `c5_attr_sibling_walk`: a two-leaf chain where leaf 1
reports `ENOATTR` with a matching last hash, so both the `get_size` walk
and the leaf-level get walk continue into the forward sibling (leaf 2) and
succeed there; plus both shapes' `get` resolving to the selected leaf. -/
theorem c5_attr_sibling_walk_witness :
    SibWalk cMapBlock cReadLeaf cLeafGetSize 5 1 (.ok 7) ∧
    SibWalkGet cMapD cReadLeaf cLeafLookup 5 cLeaf1 (.ok [7]) ∧
    AttrNode.get [(5, 1)] cReadLeaf (fun _ _ => .error ENOATTR) 5
      = some (.error ENOATTR) ∧
    AttrBtree.get [(5, 1)] cReadLeaf (fun _ _ => []) 5 = some (.ok []) :=
  ⟨c5_attr_sibling_walk.1 cMapBlock cReadLeaf cLeafGetSize 5 3 1 _ rfl,
   c5_attr_sibling_walk.2.1 cMapD cReadLeaf cLeafLookup 5 3 cLeaf1 _ rfl,
   c5_attr_sibling_walk.2.2.1 [(5, 1)] cReadLeaf (fun _ _ => .error ENOATTR) 5 1 cLeaf1 rfl rfl,
   c5_attr_sibling_walk.2.2.2 [(5, 1)] cReadLeaf (fun _ _ => []) 5 1 cLeaf1 rfl rfl⟩

/-- The Rust `partition_point` binary search returns the boundary `b` of any
predicate that is true exactly on the prefix `[0, b)` of the slice. -/
theorem partitionPointLoop_boundary (pred : BmbtRec → Bool) (l : List BmbtRec)
    (b : Nat) (hbelow : ∀ k, k < b → pred (l.getD k default) = true)
    (habove : ∀ k, b ≤ k → k < l.length → pred (l.getD k default) = false) :
    ∀ (fuel left right : Nat), right ≤ l.length → left ≤ b → b ≤ right →
      right - left < fuel → partitionPointLoop pred l fuel left right = b := by
  intro fuel
  induction fuel with
  | zero => intro left right _ h1 h2 h3; omega
  | succ fuel ih =>
    intro left right hr h1 h2 hf
    simp only [partitionPointLoop]
    split
    · rename_i hlt
      have hmid1 : left ≤ (left + right) / 2 := by omega
      have hmid2 : (left + right) / 2 < right := by omega
      split
      · rename_i hp
        have hb : (left + right) / 2 < b := by
          by_contra hc
          push_neg at hc
          rw [habove _ hc (lt_of_lt_of_le hmid2 hr)] at hp
          exact Bool.noConfusion hp
        exact ih _ _ hr (by omega) h2 (by omega)
      · rename_i hp
        have hb : b ≤ (left + right) / 2 := by
          by_contra hc
          push_neg at hc
          exact hp (hbelow _ hc)
        exact ih _ _ (le_trans (le_of_lt hmid2) hr) h1 hb (by omega)
    · rename_i hlt
      omega

/-- `partition_point` at the top-level bounds. -/
theorem partition_point_boundary (pred : BmbtRec → Bool) (l : List BmbtRec)
    (b : Nat) (hble : b ≤ l.length)
    (hbelow : ∀ k, k < b → pred (l.getD k default) = true)
    (habove : ∀ k, b ≤ k → k < l.length → pred (l.getD k default) = false) :
    partition_point pred l = b :=
  partitionPointLoop_boundary pred l b hbelow habove (l.length + 1) 0 l.length
    le_rfl (Nat.zero_le b) hble (by omega)

/-- Claim C8: under the documented extent invariants (`bmx` sorted by
`br_startoff` with non-overlapping ranges and positive `br_blockcount`),
`AttrNode::map_dblock(dblock)` returns normally iff some extent record
contains `dblock`, in which case it returns
`br_startblock + (dblock - br_startoff)` of that record with neither the
`bmx[i - 1]` index nor the assertion failing; for a `dblock` before the
first extent or in a gap it panics (`none`) instead of reporting a hole. -/
theorem c8_map_dblock_spec (bmx : List BmbtRec) (dblock : Nat)
    (hsort : bmx.Pairwise (fun a b => a.br_startoff + a.br_blockcount ≤ b.br_startoff))
    (hpos : ∀ r ∈ bmx, 0 < r.br_blockcount) :
    (∀ r ∈ bmx, r.br_startoff ≤ dblock →
        dblock < r.br_startoff + r.br_blockcount →
        AttrNode.map_dblock bmx dblock
          = some (r.br_startblock + (dblock - r.br_startoff))) ∧
    ((¬ ∃ r ∈ bmx, r.br_startoff ≤ dblock ∧
          dblock < r.br_startoff + r.br_blockcount) →
        AttrNode.map_dblock bmx dblock = none) := by
  have hgetD : ∀ (k : Nat) (hk : k < bmx.length), bmx.getD k default = bmx.get ⟨k, hk⟩ := by
    intro k hk
    rw [List.getD_eq_get?, List.get?_eq_get hk]
    rfl
  have hpair := List.pairwise_iff_get.mp hsort
  constructor
  · intro r hr hlo hhi
    obtain ⟨⟨k, hk⟩, hrk⟩ := List.mem_iff_get.mp hr
    have hpp : partition_point (fun q => decide (q.br_startoff ≤ dblock)) bmx = k + 1 := by
      apply partition_point_boundary
      · omega
      · intro j hj
        have hjlen : j < bmx.length := by omega
        rw [hgetD j hjlen, decide_eq_true_eq]
        rcases Nat.lt_or_ge j k with hjk | hjk
        · have hp := hpair ⟨j, hjlen⟩ ⟨k, hk⟩ (Fin.mk_lt_mk.mpr hjk)
          have hc := hpos _ (List.get_mem bmx j hjlen)
          rw [hrk] at hp
          omega
        · have : j = k := by omega
          subst this
          rw [hrk]
          exact hlo
      · intro j hj hjlen
        have hp := hpair ⟨k, hk⟩ ⟨j, hjlen⟩ (Fin.mk_lt_mk.mpr (by omega))
        rw [hrk] at hp
        rw [hgetD j hjlen, decide_eq_false_iff_not]
        omega
    simp only [AttrNode.map_dblock, hpp]
    rw [if_neg (by omega : ¬ k + 1 = 0)]
    simp only [Nat.add_sub_cancel, List.get?_eq_get hk, hrk]
    rw [if_pos ⟨by omega, hlo, hhi⟩]
  · intro hno
    rcases hv : AttrNode.map_dblock bmx dblock with _ | v
    · rfl
    · exfalso
      apply hno
      simp only [AttrNode.map_dblock] at hv
      split at hv
      · exact absurd hv (by simp)
      · split at hv
        · exact absurd hv (by simp)
        · rename_i entry hget
          split at hv
          · rename_i hcond
            exact ⟨entry, List.get?_mem hget, hcond.2.1, hcond.2.2⟩
          · exact absurd hv (by simp)

/-- A hash-sorted `ents` vector is monotone under `getD`. -/
theorem entsMono (ents : List Dir2LeafEntry)
    (hsort : ents.Pairwise (fun a b => a.hashval ≤ b.hashval)) :
    ∀ (i j : Nat), i < ents.length → j < ents.length → i ≤ j →
      (ents.getD i default).hashval ≤ (ents.getD j default).hashval := by
  intro i j hi hj hij
  rw [List.getD_eq_get?, List.get?_eq_get hi, List.getD_eq_get?, List.get?_eq_get hj]
  rcases Nat.lt_or_ge i j with h | h
  · exact List.pairwise_iff_get.mp hsort ⟨i, hi⟩ ⟨j, hj⟩ (Fin.mk_lt_mk.mpr h)
  · have : i = j := by omega
    subst this
    exact le_refl _

/-- Invariant correctness of the `get_address` binary-search loop: inside
bounds, with everything left of `low` hashing below the query and
everything right of `high` hashing above it, the loop terminates without
out-of-bounds indexing and finds a matching entry iff one exists. -/
theorem getAddressLoop_spec (ents : List Dir2LeafEntry) (hash : Nat)
    (hsort : ents.Pairwise (fun a b => a.hashval ≤ b.hashval)) :
    ∀ (fuel : Nat) (low high : Int), 0 ≤ low → high < ents.length →
      (high - low + 1).toNat < fuel →
      (∀ k : Nat, k < ents.length → (k : Int) < low →
        (ents.getD k default).hashval < hash) →
      (∀ k : Nat, k < ents.length → high < (k : Int) →
        hash < (ents.getD k default).hashval) →
      ∃ r, getAddressLoop ents hash fuel low high = some r ∧
        ((∃ e ∈ ents, e.hashval = hash) →
          ∃ e ∈ ents, e.hashval = hash ∧ r = .ok e.address) ∧
        ((∀ e ∈ ents, e.hashval ≠ hash) → r = .error ENOENT) := by
  intro fuel
  induction fuel with
  | zero => intro low high hlo hhi hf _ _; omega
  | succ fuel ih =>
    intro low high hlo hhi hf hbelow habove
    simp only [getAddressLoop]
    split
    · rename_i hle
      have hmid1 : low ≤ low + (high - low) / 2 := by omega
      have hmid2 : low + (high - low) / 2 ≤ high := by omega
      have hmnat : (low + (high - low) / 2).toNat < ents.length := by omega
      rw [List.get?_eq_get hmnat]
      have hgd : ents.get ⟨(low + (high - low) / 2).toNat, hmnat⟩
          = ents.getD (low + (high - low) / 2).toNat default := by
        rw [List.getD_eq_get?, List.get?_eq_get hmnat]
        rfl
      split
      · rename_i hcontra
        exact absurd hcontra (by simp)
      · rename_i entry hentry
        rw [Option.some_inj] at hentry
        split
        · rename_i hgt
          -- hash < entry.hashval : shrink the right side
          apply ih low (low + (high - low) / 2 - 1) hlo (by omega) (by omega) hbelow
          intro k hk hks
          have hmk : (low + (high - low) / 2).toNat ≤ k := by omega
          calc hash < entry.hashval := hgt
            _ ≤ (ents.getD k default).hashval := by
                rw [← hentry, hgd]
                exact entsMono ents hsort _ k hmnat hk hmk
        · split
          · rename_i hgt hlt
            -- entry.hashval < hash : shrink the left side
            apply ih (low + (high - low) / 2 + 1) high (by omega) hhi (by omega)
              ?_ habove
            intro k hk hks
            have hmk : k ≤ (low + (high - low) / 2).toNat := by omega
            calc (ents.getD k default).hashval
                ≤ entry.hashval := by
                  rw [← hentry, hgd]
                  exact entsMono ents hsort k _ hk hmnat hmk
              _ < hash := hlt
          · rename_i hgt hlt
            have heq : entry.hashval = hash := by omega
            refine ⟨.ok entry.address, rfl, ?_, ?_⟩
            · intro _
              refine ⟨entry, ?_, heq, rfl⟩
              rw [← hentry]
              exact List.get_mem ents _ hmnat
            · intro hnone
              refine absurd heq (hnone entry ?_)
              rw [← hentry]
              exact List.get_mem ents _ hmnat
    · rename_i hle
      refine ⟨.error ENOENT, rfl, ?_, fun _ => rfl⟩
      intro ⟨e, he, heq⟩
      exfalso
      obtain ⟨⟨k, hk⟩, hek⟩ := List.mem_iff_get.mp he
      have hgdk : ents.getD k default = e := by
        rw [List.getD_eq_get?, List.get?_eq_get hk, hek]
        rfl
      rcases Int.lt_or_le (k : Int) low with h | h
      · have := hbelow k hk h
        rw [hgdk, heq] at this
        omega
      · have := habove k hk (by omega)
        rw [hgdk, heq] at this
        omega

/-- The wrapped `(len - 1) as i64` equals the mathematical `len - 1` for
every in-range length, including `-1` for `len = 0`. -/
theorem i64ofU64_wrappingSub_one (n : Nat) (h : n ≤ 2 ^ 63) :
    i64ofU64 (usizeWrappingSub n 1) = (n : Int) - 1 := by
  simp only [i64ofU64, usizeWrappingSub]
  rcases Nat.eq_zero_or_pos n with h0 | h0
  · subst h0
    norm_num
  · have hm : (n + 2 ^ 64 - 1) % 2 ^ 64 = n - 1 := by omega
    rw [hm]
    rw [if_pos (by omega)]
    omega

/-- Claim C9, amended: for every hash-sorted `ents`, `get_address` (both
copies agree) indexes only in bounds and returns `Ok(entry.address)` for
some matching entry when one exists and `Err(ENOENT)` otherwise — the empty
case only reaching `Err(ENOENT)` through the wrap of the underflowing
`ents.len() - 1` (see the counterexample for the debug-build panic); for
nonempty `ents` the debug build agrees with the release build. -/
theorem c9_get_address_finds_matching_hash (ents : List Dir2LeafEntry)
    (hash : Nat) (hsort : ents.Pairwise (fun a b => a.hashval ≤ b.hashval))
    (hlen : ents.length ≤ 2 ^ 63) :
    ((∃ e ∈ ents, e.hashval = hash) →
       ∃ e ∈ ents, e.hashval = hash ∧
         Dir2LeafDisk.get_address ents hash = some (.ok e.address)) ∧
    ((∀ e ∈ ents, e.hashval ≠ hash) →
       Dir2LeafDisk.get_address ents hash = some (.error ENOENT)) ∧
    Dir2LeafNDisk.get_address ents hash = Dir2LeafDisk.get_address ents hash ∧
    (ents ≠ [] →
       Dir2LeafDisk.get_address_dbg ents hash = Dir2LeafDisk.get_address ents hash) := by
  have hspec := getAddressLoop_spec ents hash hsort (ents.length + 1) 0
    ((ents.length : Int) - 1) le_rfl (by omega) (by omega)
    (by intro k hk hkl; omega)
    (by intro k hk hkl; omega)
  obtain ⟨r, hr, hex, hnone⟩ := hspec
  have hga : Dir2LeafDisk.get_address ents hash = some r := by
    rw [Dir2LeafDisk.get_address, i64ofU64_wrappingSub_one _ hlen]
    exact hr
  refine ⟨?_, ?_, rfl, ?_⟩
  · intro hex2
    obtain ⟨e, he, heq, hrok⟩ := hex hex2
    exact ⟨e, he, heq, by rw [hga, hrok]⟩
  · intro hnone2
    rw [hga, hnone hnone2]
  · intro hne
    rw [Dir2LeafDisk.get_address_dbg, Dir2LeafDisk.get_address,
      i64ofU64_wrappingSub_one _ hlen]
    have hpos : 0 < ents.length := List.length_pos.mpr hne
    rw [usizeCheckedSub, if_pos (by omega)]
    have h1 : ((ents.length - 1 : Nat) : Int) = (ents.length : Int) - 1 := by omega
    show getAddressLoop ents hash (ents.length + 1) 0 ((ents.length - 1 : Nat) : Int)
        = getAddressLoop ents hash (ents.length + 1) 0 ((ents.length : Int) - 1)
    rw [h1]

/-- Witness for `c9_get_address_finds_matching_hash` on a concrete sorted
vector: hash 5 is found (address 20), hash 7 is `ENOENT`. -/
theorem c9_get_address_finds_matching_hash_witness :
    (∃ e ∈ [(⟨3, 10⟩ : Dir2LeafEntry), ⟨5, 20⟩, ⟨9, 30⟩], e.hashval = 5 ∧
       Dir2LeafDisk.get_address [⟨3, 10⟩, ⟨5, 20⟩, ⟨9, 30⟩] 5
         = some (.ok e.address)) ∧
    Dir2LeafDisk.get_address [(⟨3, 10⟩ : Dir2LeafEntry), ⟨5, 20⟩, ⟨9, 30⟩] 7
      = some (.error ENOENT) :=
  ⟨(c9_get_address_finds_matching_hash [⟨3, 10⟩, ⟨5, 20⟩, ⟨9, 30⟩] 5
      (by decide) (by norm_num)).1 ⟨⟨5, 20⟩, by decide, rfl⟩,
   (c9_get_address_finds_matching_hash [⟨3, 10⟩, ⟨5, 20⟩, ⟨9, 30⟩] 7
      (by decide) (by norm_num)).2.1 (by decide)⟩

/-- Witness for `c8_map_dblock_spec`: extents `[0,2)` and `[4,7)`;
dblock 5 maps to `200 + 1`, dblock 2 (a gap) panics. -/
theorem c8_map_dblock_spec_witness :
    AttrNode.map_dblock [⟨0, 100, 2⟩, ⟨4, 200, 3⟩] 5 = some 201 ∧
    AttrNode.map_dblock [⟨0, 100, 2⟩, ⟨4, 200, 3⟩] 2 = none :=
  ⟨(c8_map_dblock_spec [⟨0, 100, 2⟩, ⟨4, 200, 3⟩] 5 (by decide) (by decide)).1
      ⟨4, 200, 3⟩ (by decide) (by decide) (by decide),
   (c8_map_dblock_spec [⟨0, 100, 2⟩, ⟨4, 200, 3⟩] 2 (by decide) (by decide)).2
      (by decide)⟩
